import Mathlib

/-!
Verification of the gradec grading core (src/grader.ts, src/server.ts).

This file shallowly embeds the grading state machine of the gradec tool:
the score-comment parser (regex RE_SCORE_COMMENT), the aggregation of
score comments onto a base score (gradeAssignment), detection of an
existing finalized grade (getExistingGrade), construction of the grader
working set (Grader.makeGrader), the tests-link-comment step of the
handle iterator, the score-and-post action (calculateAndPostGrade), the
assignment resolver loop, and the promise catch wiring of the comment
service adapter.

JavaScript numbers are modelled as exact integers extended with NaN
(JSNumber): every numeric value this code manipulates is an integer or
NaN, and additions stay well below the 2^53 exact range for realistic
inputs; float rounding is idealized away.  String-to-number conversion
(jsNum) models the decimal-integer fragment of the JS Number()
conversion: optional sign followed by digits after trimming, empty
string converts to 0, anything else to NaN.  This fragment is exactly
what the grading code exercises.
-/

/-- JavaScript number restricted to the values the grader manipulates:
exact integers and NaN. -/
inductive JSNumber where
  | num : Int → JSNumber
  | nan : JSNumber
deriving DecidableEq, Repr

/-- JS addition on the integer-or-NaN fragment: NaN is absorbing. -/
def jsAdd : JSNumber → JSNumber → JSNumber
  | JSNumber.num a, JSNumber.num b => JSNumber.num (a + b)
  | _, _ => JSNumber.nan

/-- JS unary minus on the integer-or-NaN fragment. -/
def jsNeg : JSNumber → JSNumber
  | JSNumber.num a => JSNumber.num (-a)
  | JSNumber.nan => JSNumber.nan

/-- Value of a decimal digit character. -/
def digitVal (c : Char) : Nat := c.toNat - '0'.toNat

/-- Big-endian value of a list of decimal digit characters. -/
def digitsVal (ds : List Char) : Nat :=
  ds.foldl (fun a c => 10 * a + digitVal c) 0

/-- Decimal digit character for a value below ten. -/
def digitChar (n : Nat) : Char :=
  match n with
  | 0 => '0' | 1 => '1' | 2 => '2' | 3 => '3' | 4 => '4'
  | 5 => '5' | 6 => '6' | 7 => '7' | 8 => '8' | _ => '9'

/-- Little-endian decimal digits of a natural number; the fuel argument
makes the recursion structural (any fuel above the number works, and the
wrapper below supplies enough). -/
def natToRevAux : Nat → Nat → List Char
  | 0, _ => []
  | fuel + 1, n =>
    if n < 10 then [digitChar n]
    else digitChar (n % 10) :: natToRevAux fuel (n / 10)

/-- Decimal digit characters of a natural number, most significant first. -/
def natToDigits (n : Nat) : List Char := (natToRevAux (n + 1) n).reverse

/-- Decimal character rendering of an integer, as JS String() renders an
integral number. -/
def intToChars (v : Int) : List Char :=
  if v < 0 then '-' :: natToDigits v.natAbs else natToDigits v.toNat

/-- Character rendering of a JSNumber, as JS string interpolation
renders it: decimal digits with optional minus sign, or NaN. -/
def jsNumToChars : JSNumber → List Char
  | JSNumber.num v => intToChars v
  | JSNumber.nan => ['N', 'a', 'N']

/-- String rendering of a JSNumber. -/
def jsNumToString (x : JSNumber) : String := String.mk (jsNumToChars x)

/-- JS String.prototype.trim on character lists (the whitespace actually
reaching this code is the plain space character). -/
def jsTrim (s : List Char) : List Char :=
  ((s.dropWhile Char.isWhitespace).reverse.dropWhile Char.isWhitespace).reverse

/-- Digit-run parser used by jsNum: a nonempty all-digit list converts
to its value; anything else to NaN. -/
def parseDigits (ds : List Char) : JSNumber :=
  if ds ≠ [] ∧ ds.all Char.isDigit then JSNumber.num (digitsVal ds)
  else JSNumber.nan

/-- JS Number() conversion on the decimal-integer fragment: trim, empty
converts to 0, optional single sign followed by digits, otherwise NaN. -/
def jsNum (s : List Char) : JSNumber :=
  match jsTrim s with
  | [] => JSNumber.num 0
  | c :: rest =>
    if c = '+' then parseDigits rest
    else if c = '-' then jsNeg (parseDigits rest)
    else parseDigits (c :: rest)

/-- Finds the first occurrence of a nonempty separator inside a string,
returning the part before it and the part after it. -/
def findSep (sep : List Char) : List Char → Option (List Char × List Char)
  | [] => none
  | c :: rest =>
    if sep.isPrefixOf (c :: rest) then some ([], (c :: rest).drop sep.length)
    else
      match findSep sep rest with
      | some (b, a) => some (c :: b, a)
      | none => none

/-- JS String.prototype.split on a nonempty separator, fuel-driven so
that the recursion is structural; the wrapper below supplies enough
fuel.  With zero fuel or an empty separator the input is returned whole
(the grader only ever splits on nonempty separators). -/
def jsSplitAux (sep : List Char) : Nat → List Char → List (List Char)
  | 0, s => [s]
  | fuel + 1, s =>
    if sep = [] then [s]
    else
      match findSep sep s with
      | none => [s]
      | some (b, a) => b :: jsSplitAux sep fuel a

/-- JS String.prototype.split on a nonempty separator. -/
def jsSplit (sep s : List Char) : List (List Char) :=
  jsSplitAux sep (s.length + 1) s

/-- JS String.prototype.startsWith. -/
def jsStartsWith (s p : String) : Bool := p.data.isPrefixOf s.data

/-- Marker prefix of a finalized score comment (constant of grader.ts). -/
def SCORE_PREFIX : String := "Score:"

/-- Marker prefix of a tests-link comment (constant of grader.ts). -/
def TESTS_PREFIX : String := "CI tests at"

/-- Match of the score-comment pattern of grader.ts against the start of
a comment body.  The source pattern is the regex
RE_SCORE_COMMENT anchored at the start: a character class holding plus,
pipe and minus, then one or more digits (captured together with the
class character, greedily), then an optional colon-and-text tail that
does not affect the capture.  Returns the first capture group. -/
def matchScoreComment (body : String) : Option (List Char) :=
  match body.data with
  | [] => none
  | c :: rest =>
    if c = '+' ∨ c = '|' ∨ c = '-' then
      let digits := rest.takeWhile Char.isDigit
      if digits = [] then none else some (c :: digits)
    else none

/-- Remote comment as returned by the GitHub commit-comments API
(api.ts CommitCommentsResponse; the node id field is unused by the
grading logic and omitted).  A null path marks a commit-level comment. -/
structure CommitCommentsResponse where
  body : String
  path : Option String
  html_url : String
deriving DecidableEq, Repr

/-- JS falsiness of the path field: null (none) and the empty string are
falsy, exactly the test the source applies with the bang operator. -/
def pathFalsy : Option String → Bool
  | none => true
  | some s => s.data = []

/-- Reducer of the score aggregation (the callback of the reduce in
gradeAssignment of grader.ts): a body matching the score pattern adds
the numeric conversion of its capture to the accumulator; any other
body leaves the accumulator unchanged.  The comment's path is not
consulted. -/
def scoreStep (res : JSNumber) (comment : CommitCommentsResponse) : JSNumber :=
  match matchScoreComment comment.body with
  | some cap => jsAdd res (jsNum cap)
  | none => res

/-- Aggregation of score comments (gradeAssignment of grader.ts): fold
the reducer over all fetched comments starting from the base score
MAXSCORE (parameterized here as an integer, default 100 in the
source). -/
def gradeAssignment (comments : List CommitCommentsResponse) (base : Int) : JSNumber :=
  comments.foldl scoreStep (JSNumber.num base)

example : gradeAssignment
    [⟨"+3: nice", some "a.txt", "u1"⟩, ⟨"-2: fix", some "b.txt", "u2"⟩,
     ⟨"observation", some "c.txt", "u3"⟩, ⟨"-", some "d.txt", "u4"⟩,
     ⟨"5", some "e.txt", "u5"⟩] 100 = JSNumber.num 101 := by decide

example : gradeAssignment [⟨"|5: ok", some "a.txt", "u"⟩] 100 = JSNumber.nan := by decide

example : gradeAssignment [⟨"+3", none, "u"⟩] 100 = JSNumber.num 103 := by decide

/-- Characters matched by the regex dot in JS: anything except a line
terminator. -/
def isDotChar (c : Char) : Bool :=
  c ≠ '\n' && c ≠ '\r' && c ≠ '\u2028' && c ≠ '\u2029'

/-- Tail of the GitHub commit URL regex of grader.ts after the leading
dot-star: the literal github, one dot character, the literal com and a
slash, then the first greedy capture, the literal commit segment, and
the second greedy capture.  Returns the two captures. -/
def ghTail (cs : List Char) : Option (List Char × List Char) :=
  if "github".data.isPrefixOf cs then
    match cs.drop 6 with
    | [] => none
    | d :: r2 =>
      if isDotChar d && "com/".data.isPrefixOf r2 then
        let r3 := r2.drop 4
        let m := (r3.takeWhile isDotChar).length
        (List.range (m + 1)).reverse.findSome? (fun r =>
          if "/commit/".data.isPrefixOf (r3.drop r) then
            some (r3.take r, ((r3.drop r).drop 8).takeWhile isDotChar)
          else none)
      else none
  else none

/-- One attempt of the GitHub commit URL regex at a fixed start
position: the leading greedy dot-star consumes as many dot characters
as possible and backtracks. -/
def ghTryAt (cs : List Char) : Option (List Char × List Char) :=
  let m := (cs.takeWhile isDotChar).length
  (List.range (m + 1)).reverse.findSome? (fun q => ghTail (cs.drop q))

/-- Match of the unanchored GitHub commit URL regex RE_GH_COMMIT of
grader.ts: leftmost attempt position wins, greedy backtracking within an
attempt; on success returns the repo and commit captures. -/
def ghMatch (url : String) : Option (List Char × List Char) :=
  (List.range (url.data.length + 1)).findSome? (fun p => ghTryAt (url.data.drop p))

example : ghMatch "https://github.com/owner/repo/commit/abc123" =
    some ("owner/repo".data, "abc123".data) := by decide

example : ghMatch "notaurl" = none := by decide

/-- A line of an author listing file (Submission of grader.ts). -/
structure Submission where
  author : String
  url : String
deriving DecidableEq, Repr

/-- Resolved assignment metadata (api.ts CommitMetadata). -/
structure CommitMetadata where
  author : String
  commit : String
  commitUrl : String
  repo : String
  testsUrl : String
deriving DecidableEq, Repr

/-- Fallback record for an out-of-range list read; the source would
throw there, and no theorem below depends on this value. -/
def noSubmission : Submission := ⟨"", ""⟩

/-- Body of one resolver iteration (grader.ts Grader.makeGrader,
server.ts GradecServer constructor): a row whose URL matches the GitHub
commit pattern pushes its metadata record, a row that fails the match
pushes an error string naming the author and continues. -/
def resolveStep (record t : Submission) (rest : List CommitMetadata × List String) :
    List CommitMetadata × List String :=
  match ghMatch record.url with
  | some rc =>
      ({author := record.author, commit := String.mk rc.2,
        commitUrl := record.url, repo := String.mk rc.1,
        testsUrl := t.url} :: rest.1, rest.2)
  | none => (rest.1, ("GitHub commit missing for " ++ record.author) :: rest.2)

/-- Resolver loop shared by Grader.makeGrader (grader.ts) and the
GradecServer constructor (server.ts): iterate indices from the start
bound while inside both the listing and the end bound, applying the
row step at each visited index, accumulating metadata records and
error strings in ascending index order. -/
def resolveLoop (commits tests : List Submission) (i endIdx : Int) :
    List CommitMetadata × List String :=
  if _h : i < (commits.length : Int) ∧ i ≤ endIdx then
    resolveStep (commits.getD i.toNat noSubmission) (tests.getD i.toNat noSubmission)
      (resolveLoop commits tests (i + 1) endIdx)
  else ([], [])
termination_by ((commits.length : Int) + 1 - i).toNat
decreasing_by
  omega

/-- Per-row resolution outcome, used to state theorems about the loop:
a matching row yields its metadata record. -/
def resolveRow (c t : Submission) : Option CommitMetadata :=
  (ghMatch c.url).map (fun rc =>
    {author := c.author, commit := String.mk rc.2, commitUrl := c.url,
     repo := String.mk rc.1, testsUrl := t.url})

/-- Structural companion of the resolver loop over the list of visited
row pairs, in visiting order. -/
def resolveRows : List (Submission × Submission) → List CommitMetadata × List String
  | [] => ([], [])
  | (c, t) :: rest => resolveStep c t (resolveRows rest)

/-- Strips one carriage return left at the end of a line by splitting on
the newline character (the source splits on an optional carriage return
followed by a newline). -/
def stripTrailCR (l : List Char) : List Char :=
  if l.getLast? = some '\r' then l.dropLast else l

/-- Line splitting of getSubmissions in grader.ts: split on newlines,
where each newline may be preceded by a consumed carriage return. -/
def splitLinesRN (content : String) : List (List Char) :=
  let ps := jsSplit ['\n'] content.data
  ps.dropLast.map stripTrailCR ++ [(ps.getLast?).getD []]

/-- One listing file parsed into submissions (getSubmissions of
grader.ts): split into lines, discard empty lines, split each line on
spaces and keep the first two tokens as author and url.  A line without
a second token makes the source throw later when the url is read; the
model gives it an empty url, which never matches the commit pattern. -/
def splitFile (content : String) : List Submission :=
  ((splitLinesRN content).filter (fun l => l ≠ [])).map (fun line =>
    let parts := jsSplit [' '] line
    {author := String.mk (parts.getD 0 []), url := String.mk (parts.getD 1 [])})

/-- Both listing files parsed (getSubmissions of grader.ts), from file
contents rather than file paths: the file system read is outside the
model. -/
def getSubmissions (commitsFile testsFile : String) : List Submission × List Submission :=
  (splitFile commitsFile, splitFile testsFile)

/-- Body parse of getExistingGrade in grader.ts: the text after the
score marker and before the first slash, trimmed, converted by JS
Number(). -/
def parseScoreBody (body : String) : JSNumber :=
  jsNum (jsTrim ((jsSplit ['/'] ((jsSplit SCORE_PREFIX.data body.data).getD 1 [])).getD 0 []))

/-- Existing finalized grade of an assignment (getExistingGrade of
grader.ts): the first fetched comment with a falsy path whose body
starts with the score marker determines the grade by parsing its body;
absent such a comment the result is undefined (none). -/
def getExistingGrade (comments : List CommitCommentsResponse) : Option JSNumber :=
  (comments.find? (fun c => pathFalsy c.path && jsStartsWith c.body SCORE_PREFIX)).map
    (fun c => parseScoreBody c.body)

example : getExistingGrade [⟨"Score: 101/100", none, "u"⟩] = some (JSNumber.num 101) := by decide

example : getExistingGrade [⟨"Score: 💯", none, "u"⟩] = some JSNumber.nan := by decide

example : getExistingGrade [⟨"CI tests at x", none, "u"⟩] = none := by decide

/-- Result of the constructed grader: its working set of unscored
assignments and the row-resolution errors (the pair returned by
Grader.makeGrader in grader.ts). -/
structure MakeGraderResult where
  assignments : List CommitMetadata
  errors : List String
deriving DecidableEq, Repr

/-- Construction of the grader (Grader.makeGrader of grader.ts), from
listing file contents, zero-based inclusive bounds, and the remote
comment state (the env function stands for the GET of all comments on
an assignment's commit; the access token and the network are outside
the model).  Rows are resolved by the resolver loop, then assignments
whose existing grade is not undefined are filtered out, leaving only
unscored assignments in the working set. -/
def makeGrader (commitsFile testsFile : String) (bounds : Int × Int)
    (env : CommitMetadata → List CommitCommentsResponse) : MakeGraderResult :=
  let subs := getSubmissions commitsFile testsFile
  let resolved := resolveLoop subs.1 subs.2 bounds.1 bounds.2
  let unscoredAssignments :=
    resolved.1.filter (fun m => (getExistingGrade (env m)).isNone)
  {assignments := unscoredAssignments, errors := resolved.2}

/-- The tests-link step of the handle iterator (grader.ts, the async
iterator of Grader): find the first fetched comment whose body starts
with the tests marker; when none exists, post a commit-level comment of
the marker followed by a space and the tests URL.  The postUrl argument
models the permalink the remote service assigns to a newly created
comment.  Returns the tests comment the handle exposes together with
the posted comment, if any. -/
def ensureTestsComment (comments : List CommitCommentsResponse)
    (testsUrl postUrl : String) :
    CommitCommentsResponse × Option CommitCommentsResponse :=
  match comments.find? (fun c => jsStartsWith c.body TESTS_PREFIX) with
  | some c => (c, none)
  | none =>
    let posted : CommitCommentsResponse :=
      {body := TESTS_PREFIX ++ " " ++ testsUrl, path := none, html_url := postUrl}
    (posted, some posted)

/-- Result of the score-and-post action (api.ts CommentScoreResult). -/
structure CommentScoreResult where
  comment : String
  score : JSNumber
  url : String
deriving DecidableEq, Repr

/-- The score-and-post action of a grade handle (calculateAndPostGrade
in grader.ts): aggregate the score comments, render the final score
string (the hundred glyph when the score strictly equals the base
score, otherwise score slash base), post it as a commit-level comment
prefixed by the score marker, and return the result record together
with the posted comment. -/
def calculateAndPostGrade (comments : List CommitCommentsResponse)
    (base : Int) (postUrl : String) :
    CommentScoreResult × CommitCommentsResponse :=
  let score := gradeAssignment comments base
  let scoreStr :=
    if score = JSNumber.num base then "💯"
    else jsNumToString score ++ "/" ++ jsNumToString (JSNumber.num base)
  let finalScoreComment := SCORE_PREFIX ++ " " ++ scoreStr
  ({comment := finalScoreComment, score := score, url := postUrl},
   {body := finalScoreComment, path := none, html_url := postUrl})

example : (calculateAndPostGrade [⟨"-10: x", some "f", "u"⟩] 100 "purl").1.comment =
    "Score: 90/100" := by decide

example : (calculateAndPostGrade [] 100 "purl").1.comment = "Score: 💯" := by decide

/-- Grade handle as yielded by the iterator (GradeHandle of grader.ts);
the score-and-post closure is modelled separately by
calculateAndPostGrade, and the posted tests-link comment is carried
explicitly so that theorems can speak about what was posted. -/
structure GradeHandleM where
  commitUrl : String
  testsCommentUrl : String
  postedLink : Option CommitCommentsResponse
  posAt : Nat
  total : Nat
deriving DecidableEq, Repr

/-- Handle production loop of the iterator (grader.ts, the async
iterator of Grader): one handle per working-set assignment, in order,
with one-based positions against the working-set size. -/
def graderHandlesAux (env : CommitMetadata → List CommitCommentsResponse)
    (postUrl : CommitMetadata → String) (total : Nat) :
    List CommitMetadata → Nat → List (CommitMetadata × GradeHandleM)
  | [], _ => []
  | commit :: rest, i =>
    let r := ensureTestsComment (env commit) commit.testsUrl (postUrl commit)
    (commit,
     {commitUrl := commit.commitUrl, testsCommentUrl := r.1.html_url,
      postedLink := r.2, posAt := i + 1, total := total}) ::
      graderHandlesAux env postUrl total rest (i + 1)

/-- All handles the grader yields, in order. -/
def graderHandles (assignments : List CommitMetadata)
    (env : CommitMetadata → List CommitCommentsResponse)
    (postUrl : CommitMetadata → String) : List (CommitMetadata × GradeHandleM) :=
  graderHandlesAux env postUrl assignments.length assignments 0

/-- Read-only score status query (Grader.getAssignmentScores of
grader.ts): for every working-set assignment, re-fetch its comments and
pair its author with its existing grade, if any. -/
def getAssignmentScores (assignments : List CommitMetadata)
    (env : CommitMetadata → List CommitCommentsResponse) :
    List (String × Option JSNumber) :=
  assignments.map (fun commit => (commit.author, getExistingGrade (env commit)))

/-- Error value the comment service hands to the failure handler
(api.ts CommitCommentsError); the options field carries the attempted
request, summarized here by its target URI and message. -/
structure CommitCommentsError where
  message : String
  optionsUri : String
deriving DecidableEq, Repr

/-- Outcome of a JS promise: resolved with a value or rejected with an
error. -/
inductive PromiseResult (α : Type) where
  | resolved : α → PromiseResult α
  | rejected : CommitCommentsError → PromiseResult α
deriving DecidableEq, Repr

/-- The failure handler of grader.ts (handleFailedRequest): logs the
attempted request and the error message (console output is outside the
model) and returns the numeric exit code one. -/
def handleFailedRequest (_err : CommitCommentsError) : Nat := 1

/-- JS promise catch: a resolved promise passes through, a rejected one
resolves to the handler's return value.  The sum type records which of
the two union members the promise resolved with. -/
def promiseCatch {α β : Type} (p : PromiseResult α)
    (handler : CommitCommentsError → β) : PromiseResult (α ⊕ β) :=
  match p with
  | PromiseResult.resolved v => PromiseResult.resolved (Sum.inl v)
  | PromiseResult.rejected e => PromiseResult.resolved (Sum.inr (handler e))

/-- The list-comments adapter operation (getComments of grader.ts): the
raw GET outcome with the failure handler attached by catch. -/
def getComments (fetch : PromiseResult (List CommitCommentsResponse))
    (handler : CommitCommentsError → Nat) :
    PromiseResult (List CommitCommentsResponse ⊕ Nat) :=
  promiseCatch fetch handler

/-- The post-comment adapter operation (postComment of grader.ts): the
raw POST outcome with the failure handler attached by catch. -/
def postComment (post : PromiseResult CommitCommentsResponse)
    (handler : CommitCommentsError → Nat) :
    PromiseResult (CommitCommentsResponse ⊕ Nat) :=
  promiseCatch post handler

/-! ### Infrastructure lemmas: characters, trimming, digits -/

lemma dropWhile_all_not {p : Char → Bool} :
    ∀ {s : List Char}, (∀ c ∈ s, p c = false) → s.dropWhile p = s
  | [], _ => rfl
  | c :: rest, h => by
    rw [List.dropWhile_cons, if_neg (by simp [h c (by simp)])]

lemma jsTrim_all_not {s : List Char} (h : ∀ c ∈ s, c.isWhitespace = false) :
    jsTrim s = s := by
  unfold jsTrim
  rw [dropWhile_all_not h,
    dropWhile_all_not (fun c hc => h c (List.mem_reverse.mp hc)),
    List.reverse_reverse]

lemma jsTrim_space_cons {s : List Char} (h : ∀ c ∈ s, c.isWhitespace = false) :
    jsTrim (' ' :: s) = s := by
  unfold jsTrim
  rw [List.dropWhile_cons, if_pos (by decide), dropWhile_all_not h,
    dropWhile_all_not (fun c hc => h c (List.mem_reverse.mp hc)),
    List.reverse_reverse]

lemma digitVal_digitChar {n : Nat} (h : n < 10) : digitVal (digitChar n) = n := by
  interval_cases n <;> decide

lemma isDigit_digitChar (n : Nat) : (digitChar n).isDigit = true := by
  unfold digitChar
  rcases n with _ | _ | _ | _ | _ | _ | _ | _ | _ | _ <;> rfl

lemma digitsVal_append_single (xs : List Char) (c : Char) :
    digitsVal (xs ++ [c]) = 10 * digitsVal xs + digitVal c := by
  unfold digitsVal
  rw [List.foldl_append]
  rfl

lemma natToRevAux_spec :
    ∀ (fuel n : Nat), n < fuel →
      natToRevAux fuel n ≠ [] ∧ (∀ c ∈ natToRevAux fuel n, c.isDigit = true) ∧
        digitsVal ((natToRevAux fuel n).reverse) = n := by
  intro fuel
  induction fuel with
  | zero => intro n h; omega
  | succ f ih =>
    intro n _
    by_cases hn : n < 10
    · refine ⟨by simp [natToRevAux, hn], ?_, ?_⟩
      · intro c hc
        simp [natToRevAux, hn] at hc
        rw [hc]
        exact isDigit_digitChar n
      · simp [natToRevAux, hn, digitsVal, digitVal_digitChar hn]
    · have hrec : n / 10 < f := by omega
      obtain ⟨hne, hdig, hval⟩ := ih (n / 10) hrec
      refine ⟨by simp [natToRevAux, hn], ?_, ?_⟩
      · intro c hc
        simp only [natToRevAux, if_neg hn, List.mem_cons] at hc
        rcases hc with hc | hc
        · rw [hc]; exact isDigit_digitChar (n % 10)
        · exact hdig c hc
      · simp only [natToRevAux, if_neg hn, List.reverse_cons]
        rw [digitsVal_append_single, hval, digitVal_digitChar (by omega)]
        omega

lemma natToDigits_ne_nil (n : Nat) : natToDigits n ≠ [] := by
  unfold natToDigits
  have h := (natToRevAux_spec (n + 1) n (by omega)).1
  simpa using h

lemma natToDigits_digits (n : Nat) : ∀ c ∈ natToDigits n, c.isDigit = true := by
  intro c hc
  exact (natToRevAux_spec (n + 1) n (by omega)).2.1 c (List.mem_reverse.mp hc)

lemma digitsVal_natToDigits (n : Nat) : digitsVal (natToDigits n) = n :=
  (natToRevAux_spec (n + 1) n (by omega)).2.2

/-- Character content of a rendered JSNumber: decimal digits, the minus
sign, or the letters of NaN. -/
def scoreChar (c : Char) : Prop :=
  c.isDigit = true ∨ c = '-' ∨ c = 'N' ∨ c = 'a'

lemma jsNumToChars_chars (x : JSNumber) : ∀ c ∈ jsNumToChars x, scoreChar c := by
  cases x with
  | num v =>
    intro c hc
    simp only [jsNumToChars, intToChars] at hc
    by_cases hv : v < 0
    · rw [if_pos hv] at hc
      rcases List.mem_cons.mp hc with hc | hc
      · exact Or.inr (Or.inl hc)
      · exact Or.inl (natToDigits_digits _ c hc)
    · rw [if_neg hv] at hc
      exact Or.inl (natToDigits_digits _ c hc)
  | nan =>
    intro c hc
    simp only [jsNumToChars, List.mem_cons, List.not_mem_nil, or_false] at hc
    rcases hc with rfl | rfl | rfl <;> (unfold scoreChar; decide)

lemma ws_char_cases {c : Char} (hw : c.isWhitespace = true) :
    c = ' ' ∨ c = '\t' ∨ c = '\r' ∨ c = '\n' := by
  simp only [Char.isWhitespace, Bool.or_eq_true, decide_eq_true_eq] at hw
  tauto

lemma scoreChar_not_ws {c : Char} (h : scoreChar c) : c.isWhitespace = false := by
  rcases h with h | h | h | h
  · by_contra hw
    simp only [Bool.not_eq_false] at hw
    rcases ws_char_cases hw with hw | hw | hw | hw <;>
      (rw [hw] at h; exact absurd h (by decide))
  all_goals (rw [h]; decide)

lemma scoreChar_ne_slash {c : Char} (h : scoreChar c) : c ≠ '/' := by
  rcases h with h | h | h | h
  · intro he; rw [he] at h; exact absurd h (by decide)
  all_goals (rw [h]; decide)

lemma scoreChar_ne_S {c : Char} (h : scoreChar c) : c ≠ 'S' := by
  rcases h with h | h | h | h
  · intro he; rw [he] at h; exact absurd h (by decide)
  all_goals (rw [h]; decide)

lemma parseDigits_natToDigits (n : Nat) : parseDigits (natToDigits n) = JSNumber.num n := by
  unfold parseDigits
  rw [if_pos ⟨natToDigits_ne_nil n, List.all_eq_true.mpr (natToDigits_digits n)⟩,
    digitsVal_natToDigits]

lemma isDigit_ne_sign {c : Char} (h : c.isDigit = true) : c ≠ '+' ∧ c ≠ '-' := by
  constructor <;> (intro he; rw [he] at h; exact absurd h (by decide))

lemma jsNum_cons {c : Char} {rest : List Char}
    (h : ∀ x ∈ c :: rest, x.isWhitespace = false) :
    jsNum (c :: rest) =
      if c = '+' then parseDigits rest
      else if c = '-' then jsNeg (parseDigits rest)
      else parseDigits (c :: rest) := by
  unfold jsNum
  rw [jsTrim_all_not h]

lemma jsNum_jsNumToChars (x : JSNumber) : jsNum (jsNumToChars x) = x := by
  cases x with
  | nan => decide
  | num v =>
    have hnws : ∀ c ∈ jsNumToChars (JSNumber.num v), c.isWhitespace = false :=
      fun c hc => scoreChar_not_ws (jsNumToChars_chars _ c hc)
    by_cases hv : v < 0
    · have hform : jsNumToChars (JSNumber.num v) = '-' :: natToDigits v.natAbs := by
        simp [jsNumToChars, intToChars, hv]
      rw [hform] at hnws ⊢
      rw [jsNum_cons hnws, if_neg (by decide), if_pos rfl, parseDigits_natToDigits]
      simp only [jsNeg]
      congr 1
      rw [Int.ofNat_natAbs_of_nonpos (by omega)]
      exact neg_neg v
    · have hform : jsNumToChars (JSNumber.num v) = natToDigits v.toNat := by
        simp [jsNumToChars, intToChars, hv]
      obtain ⟨d, rest, hd⟩ := List.exists_cons_of_ne_nil (natToDigits_ne_nil v.toNat)
      have hddig : d.isDigit = true := natToDigits_digits v.toNat d (by rw [hd]; simp)
      obtain ⟨hdp, hdm⟩ := isDigit_ne_sign hddig
      rw [hform, hd] at hnws ⊢
      rw [jsNum_cons hnws, if_neg hdp, if_neg hdm, ← hd, parseDigits_natToDigits]
      congr 1
      omega

/-! ### Infrastructure lemmas: the split function -/

lemma findSep_none_of_not_mem {sep : List Char} {c : Char} (hc : c ∈ sep) :
    ∀ {s : List Char}, c ∉ s → findSep sep s = none := by
  intro s
  induction s with
  | nil => intro _; rfl
  | cons x rest ih =>
    intro hs
    unfold findSep
    rw [if_neg, ih (fun hm => hs (List.mem_cons_of_mem x hm))]
    intro hpre
    exact hs (( List.isPrefixOf_iff_prefix.mp hpre).sublist.subset hc)

lemma findSep_self_start {sep rest : List Char} (hsep : sep ≠ []) :
    findSep sep (sep ++ rest) = some ([], rest) := by
  obtain ⟨c, sep', rfl⟩ := List.exists_cons_of_ne_nil hsep
  show findSep (c :: sep') (c :: (sep' ++ rest)) = some ([], rest)
  unfold findSep
  rw [if_pos ( List.isPrefixOf_iff_prefix.mpr (by exact List.prefix_append _ _))]
  simp [List.drop_left]

lemma findSep_single {c : Char} {pre rest : List Char} (h : c ∉ pre) :
    findSep [c] (pre ++ c :: rest) = some (pre, rest) := by
  induction pre with
  | nil =>
    show findSep [c] (c :: rest) = some ([], rest)
    unfold findSep
    rw [if_pos ( List.isPrefixOf_iff_prefix.mpr (by simp [List.cons_prefix_cons]))]
    simp
  | cons x pre' ih =>
    have hx : c ≠ x := fun he => h (by rw [he]; simp)
    show findSep [c] (x :: (pre' ++ c :: rest)) = some (x :: pre', rest)
    unfold findSep
    rw [if_neg, ih (fun hm => h (List.mem_cons_of_mem x hm))]
    intro hpre
    exact hx (And.left (List.cons_prefix_cons.mp
      ( List.isPrefixOf_iff_prefix.mp hpre)))

lemma jsSplitAux_no_occ {sep s : List Char} (h : findSep sep s = none) :
    ∀ fuel, jsSplitAux sep fuel s = [s] := by
  intro fuel
  cases fuel with
  | zero => rfl
  | succ f =>
    unfold jsSplitAux
    by_cases hsep : sep = []
    · rw [if_pos hsep]
    · rw [if_neg hsep, h]

lemma jsSplit_no_occ {sep s : List Char} (h : findSep sep s = none) :
    jsSplit sep s = [s] := jsSplitAux_no_occ h _

lemma jsSplit_prefix_no_more {sep rest : List Char} (hsep : sep ≠ [])
    (hno : findSep sep rest = none) :
    jsSplit sep (sep ++ rest) = [[], rest] := by
  unfold jsSplit
  unfold jsSplitAux
  rw [if_neg hsep, findSep_self_start hsep]
  show ([] : List Char) :: jsSplitAux sep (sep ++ rest).length rest = [[], rest]
  rw [jsSplitAux_no_occ hno]

lemma jsSplit_single_head {c : Char} {pre rest : List Char} (h : c ∉ pre) :
    ∃ t, jsSplit [c] (pre ++ c :: rest) = pre :: t := by
  unfold jsSplit
  unfold jsSplitAux
  rw [if_neg (by simp), findSep_single h]
  exact ⟨_, rfl⟩

/-! ### Infrastructure lemmas: score aggregation -/

lemma jsAdd_num_zero (r : JSNumber) : jsAdd r (JSNumber.num 0) = r := by
  cases r
  · simp [jsAdd]
  · rfl

lemma jsAdd_nan_right (r : JSNumber) : jsAdd r JSNumber.nan = JSNumber.nan := by
  cases r <;> rfl

lemma jsAdd_right_comm (a d v : JSNumber) :
    jsAdd (jsAdd a d) v = jsAdd (jsAdd a v) d := by
  cases a <;> cases d <;> cases v <;> first
  | rfl
  | (simp only [jsAdd]; congr 1; ring)

/-- Delta a single comment contributes to the aggregate: the numeric
conversion of its score capture, or zero when the body does not match
the score pattern. -/
def scoreDelta (comment : CommitCommentsResponse) : JSNumber :=
  match matchScoreComment comment.body with
  | some cap => jsNum cap
  | none => JSNumber.num 0

lemma scoreStep_eq_jsAdd (r : JSNumber) (c : CommitCommentsResponse) :
    scoreStep r c = jsAdd r (scoreDelta c) := by
  unfold scoreStep scoreDelta
  cases matchScoreComment c.body with
  | some cap => rfl
  | none => rw [jsAdd_num_zero]

lemma foldl_scoreStep_jsAdd (l : List CommitCommentsResponse) :
    ∀ (acc d : JSNumber),
      List.foldl scoreStep (jsAdd acc d) l = jsAdd (List.foldl scoreStep acc l) d := by
  induction l with
  | nil => intro acc d; rfl
  | cons x xs ih =>
    intro acc d
    rw [List.foldl_cons, List.foldl_cons, scoreStep_eq_jsAdd,
      jsAdd_right_comm, ← scoreStep_eq_jsAdd, ih]

lemma gradeAssignment_insert (pre post : List CommitCommentsResponse)
    (c : CommitCommentsResponse) (base : Int) :
    gradeAssignment (pre ++ c :: post) base =
      jsAdd (gradeAssignment (pre ++ post) base) (scoreDelta c) := by
  unfold gradeAssignment
  rw [List.foldl_append, List.foldl_append, List.foldl_cons,
    scoreStep_eq_jsAdd, foldl_scoreStep_jsAdd]

lemma gradeAssignment_nan {cs : List CommitCommentsResponse}
    {c : CommitCommentsResponse} (hmem : c ∈ cs)
    (hdelta : scoreDelta c = JSNumber.nan) (base : Int) :
    gradeAssignment cs base = JSNumber.nan := by
  obtain ⟨pre, post, rfl⟩ := List.append_of_mem hmem
  rw [gradeAssignment_insert, hdelta, jsAdd_nan_right]

/-! ### Infrastructure lemmas: the score pattern -/

lemma matchScoreComment_none_head {body : String} {c : Char} {rest : List Char}
    (hb : body.data = c :: rest) (h : ¬(c = '+' ∨ c = '|' ∨ c = '-')) :
    matchScoreComment body = none := by
  unfold matchScoreComment
  rw [hb]
  simp only [if_neg h]

lemma matchScoreComment_none_of_marker {body : String}
    (h : jsStartsWith body SCORE_PREFIX = true ∨ jsStartsWith body TESTS_PREFIX = true) :
    matchScoreComment body = none := by
  rcases h with h | h
  · obtain ⟨t, ht⟩ := List.isPrefixOf_iff_prefix.mp h
    exact matchScoreComment_none_head
      (show body.data = 'S' :: ("core:".data ++ t) by rw [← ht]; rfl) (by decide)
  · obtain ⟨t, ht⟩ := List.isPrefixOf_iff_prefix.mp h
    exact matchScoreComment_none_head
      (show body.data = 'C' :: ("I tests at".data ++ t) by rw [← ht]; rfl) (by decide)

lemma matchScoreComment_sign {body : String} {c : Char} {ds rest : List Char}
    (hb : body.data = c :: (ds ++ rest)) (hc : c = '+' ∨ c = '|' ∨ c = '-')
    (hds : ds ≠ []) (hdig : ∀ d ∈ ds, d.isDigit = true)
    (hrest : ∀ d, rest.head? = some d → d.isDigit = false) :
    matchScoreComment body = some (c :: ds) := by
  have htake : (ds ++ rest).takeWhile Char.isDigit = ds := by
    rw [List.takeWhile_append,
      if_pos (by rw [List.takeWhile_eq_self_iff.mpr hdig])]
    cases rest with
    | nil => simp
    | cons r rs =>
      rw [List.takeWhile_cons, if_neg (by simp [hrest r rfl])]
      simp
  unfold matchScoreComment
  rw [hb]
  simp only [if_pos hc, htake, if_neg hds]

lemma scoreDelta_signed {body : String} {c : Char} {ds rest : List Char}
    (hb : body.data = c :: (ds ++ rest)) (hc : c = '+' ∨ c = '-')
    (hds : ds ≠ []) (hdig : ∀ d ∈ ds, d.isDigit = true)
    (hrest : ∀ d, rest.head? = some d → d.isDigit = false)
    (comment : CommitCommentsResponse) (hbody : comment.body = body) :
    scoreDelta comment =
      JSNumber.num (if c = '-' then -(digitsVal ds : Int) else (digitsVal ds : Int)) := by
  have hmatch : matchScoreComment body = some (c :: ds) :=
    matchScoreComment_sign hb (by tauto) hds hdig hrest
  have hnws : ∀ x ∈ c :: ds, x.isWhitespace = false := by
    intro x hx
    rcases List.mem_cons.mp hx with rfl | hx
    · rcases hc with rfl | rfl <;> decide
    · exact scoreChar_not_ws (Or.inl (hdig x hx))
  have hpd : parseDigits ds = JSNumber.num (digitsVal ds) := by
    unfold parseDigits
    rw [if_pos ⟨hds, List.all_eq_true.mpr hdig⟩]
  unfold scoreDelta
  simp only [hbody, hmatch]
  rcases hc with rfl | rfl
  · rw [jsNum_cons hnws, if_pos rfl, hpd, if_neg (by decide)]
  · rw [jsNum_cons hnws, if_neg (by decide), if_pos rfl, hpd, if_pos rfl]
    rfl

/-! ### Infrastructure lemmas: existing grades -/

lemma getExistingGrade_isSome_iff (comments : List CommitCommentsResponse) :
    (getExistingGrade comments).isSome = true ↔
      ∃ c ∈ comments, (pathFalsy c.path && jsStartsWith c.body SCORE_PREFIX) = true := by
  unfold getExistingGrade
  cases h : List.find? (fun c => pathFalsy c.path && jsStartsWith c.body SCORE_PREFIX)
      comments with
  | none =>
    simp only [h, Option.map_none', Option.isSome_none, Bool.false_eq_true, false_iff]
    intro ⟨c, hm, hp⟩
    exact absurd hp (by simpa using List.find?_eq_none.mp h c hm)
  | some c =>
    simp only [h, Option.map_some', Option.isSome_some, true_iff]
    have hp := @List.find?_some _ _ _ _ h
    exact ⟨c, List.mem_of_find?_eq_some h, hp⟩

lemma getExistingGrade_skip {l1 l2 : List CommitCommentsResponse}
    (h : ∀ c ∈ l1, (pathFalsy c.path && jsStartsWith c.body SCORE_PREFIX) = false) :
    getExistingGrade (l1 ++ l2) = getExistingGrade l2 := by
  unfold getExistingGrade
  rw [List.find?_append, List.find?_eq_none.mpr (fun x hx => by simp [h x hx]),
    Option.none_or]

lemma getExistingGrade_cons_hit {c : CommitCommentsResponse}
    {rest : List CommitCommentsResponse}
    (hc : (pathFalsy c.path && jsStartsWith c.body SCORE_PREFIX) = true) :
    getExistingGrade (c :: rest) = some (parseScoreBody c.body) := by
  unfold getExistingGrade
  rw [@List.find?_cons_of_pos _ _ _ rest hc]
  rfl

lemma parseScoreBody_shape {body : String} {mid tail : List Char}
    (hb : body.data = SCORE_PREFIX.data ++ ' ' :: (mid ++ '/' :: tail))
    (hS : 'S' ∉ ' ' :: (mid ++ '/' :: tail))
    (hslash : '/' ∉ ' ' :: mid) :
    parseScoreBody body = jsNum (jsTrim (' ' :: mid)) := by
  unfold parseScoreBody
  rw [hb, jsSplit_prefix_no_more (by decide)
    (findSep_none_of_not_mem (show 'S' ∈ SCORE_PREFIX.data by decide) hS)]
  show jsNum (jsTrim ((jsSplit ['/'] ((' ' :: mid) ++ '/' :: tail)).getD 0 [])) = _
  obtain ⟨t, ht⟩ := @jsSplit_single_head '/' (' ' :: mid) tail hslash
  rw [ht]
  rfl

lemma posted_body_data (s : JSNumber) (base : Int) :
    ( SCORE_PREFIX ++ " " ++ (jsNumToString s ++ "/" ++ jsNumToString (JSNumber.num base))).data =
      SCORE_PREFIX.data ++ ' ' :: (jsNumToChars s ++ '/' :: jsNumToChars (JSNumber.num base)) := by
  simp only [String.data_append, jsNumToString]
  show SCORE_PREFIX.data ++ [' '] ++ (jsNumToChars s ++ ['/'] ++ jsNumToChars (JSNumber.num base)) = _
  simp [List.append_assoc]

lemma parseScoreBody_posted (s : JSNumber) (base : Int) :
    parseScoreBody
      ( SCORE_PREFIX ++ " " ++ (jsNumToString s ++ "/" ++ jsNumToString (JSNumber.num base))) = s := by
  have hmid : ∀ x ∈ jsNumToChars s, scoreChar x := jsNumToChars_chars s
  have htailc : ∀ x ∈ jsNumToChars (JSNumber.num base), scoreChar x :=
    jsNumToChars_chars (JSNumber.num base)
  have hS : 'S' ∉ ' ' :: (jsNumToChars s ++ '/' :: jsNumToChars (JSNumber.num base)) := by
    intro hm
    rcases List.mem_cons.mp hm with he | hm
    · exact absurd he (by decide)
    rcases List.mem_append.mp hm with hm | hm
    · exact scoreChar_ne_S (hmid 'S' hm) rfl
    rcases List.mem_cons.mp hm with he | hm
    · exact absurd he (by decide)
    · exact scoreChar_ne_S (htailc 'S' hm) rfl
  have hslash : '/' ∉ ' ' :: jsNumToChars s := by
    intro hm
    rcases List.mem_cons.mp hm with he | hm
    · exact absurd he (by decide)
    · exact scoreChar_ne_slash (hmid '/' hm) rfl
  rw [parseScoreBody_shape (posted_body_data s base) hS hslash,
    jsTrim_space_cons (fun c hc => scoreChar_not_ws (hmid c hc)),
    jsNum_jsNumToChars]

/-! ### Infrastructure lemmas: the resolver loop -/

lemma resolveLoop_stop (cs ts : List Submission) {i e : Int}
    (h : ¬(i < (cs.length : Int) ∧ i ≤ e)) : resolveLoop cs ts i e = ([], []) := by
  rw [resolveLoop, dif_neg h]

lemma resolveLoop_step_eq (cs ts : List Submission) {i e : Int}
    (h : i < (cs.length : Int) ∧ i ≤ e) :
    resolveLoop cs ts i e =
      resolveStep (cs.getD i.toNat noSubmission) (ts.getD i.toNat noSubmission)
        (resolveLoop cs ts (i + 1) e) := by
  conv_lhs => rw [resolveLoop]
  rw [dif_pos h]

lemma resolveLoop_eq_rows (cs ts : List Submission) (hlen : ts.length = cs.length) :
    ∀ (n : Nat) (i : Nat), cs.length - i ≤ n →
      resolveLoop cs ts (i : Int) ((cs.length : Int) - 1) =
        resolveRows ((cs.zip ts).drop i) := by
  intro n
  induction n with
  | zero =>
    intro i hi
    rw [resolveLoop_stop cs ts (by omega),
      List.drop_eq_nil_of_le (by rw [List.length_zip, hlen]; omega)]
    rfl
  | succ n ih =>
    intro i hi
    by_cases hlt : i < cs.length
    · have hzlen : i < (cs.zip ts).length := by rw [List.length_zip, hlen]; omega
      rw [resolveLoop_step_eq cs ts ⟨by exact_mod_cast hlt, by omega⟩,
        List.drop_eq_getElem_cons hzlen]
      show _ = resolveStep ((cs.zip ts)[i]).1 ((cs.zip ts)[i]).2
        (resolveRows (List.drop (i + 1) (cs.zip ts)))
      have hget : (cs.zip ts)[i] = (cs[i], ts.get ⟨i, by omega⟩) := List.getElem_zip
      have h1 : cs.getD ((i : Int)).toNat noSubmission = cs[i] := by
        rw [Int.toNat_natCast]
        exact List.getD_eq_getElem cs noSubmission hlt
      have h2 : ts.getD ((i : Int)).toNat noSubmission = ts.get ⟨i, by omega⟩ := by
        rw [Int.toNat_natCast]
        exact List.getD_eq_getElem ts noSubmission (by omega)
      have ih' : resolveLoop cs ts ((i : Int) + 1) ((cs.length : Int) - 1) =
          resolveRows (List.drop (i + 1) (cs.zip ts)) := by
        have hcast : ((i + 1 : Nat) : Int) = (i : Int) + 1 := by push_cast; ring
        have := ih (i + 1) (by omega)
        rwa [hcast] at this
      rw [hget, h1, h2, ih']
    · rw [resolveLoop_stop cs ts (by omega),
        List.drop_eq_nil_of_le (by rw [List.length_zip, hlen]; omega)]
      rfl

lemma resolveRows_fst (ps : List (Submission × Submission)) :
    (resolveRows ps).1 = ps.filterMap (fun p => resolveRow p.1 p.2) := by
  induction ps with
  | nil => rfl
  | cons p rest ih =>
    obtain ⟨c, t⟩ := p
    show (resolveStep c t (resolveRows rest)).1 = _
    cases h : ghMatch c.url with
    | none =>
      have hr : resolveRow c t = none := by unfold resolveRow; rw [h]; rfl
      simp [List.filterMap_cons, resolveStep, h, hr, ih]
    | some rc =>
      have hr : resolveRow c t = some
          {author := c.author, commit := String.mk rc.2, commitUrl := c.url,
           repo := String.mk rc.1, testsUrl := t.url} := by
        unfold resolveRow
        rw [h]
        rfl
      simp [List.filterMap_cons, resolveStep, h, hr, ih]

lemma resolveRows_snd (ps : List (Submission × Submission)) :
    (resolveRows ps).2 = ps.filterMap (fun p =>
      if (ghMatch p.1.url).isSome then none
      else some ("GitHub commit missing for " ++ p.1.author)) := by
  induction ps with
  | nil => rfl
  | cons p rest ih =>
    obtain ⟨c, t⟩ := p
    show (resolveStep c t (resolveRows rest)).2 = _
    unfold resolveStep
    cases h : ghMatch c.url <;>
      simp [List.filterMap_cons, h, ih]

lemma resolveLoop_clamp (cs ts : List Submission) {e : Int}
    (he : (cs.length : Int) - 1 ≤ e) :
    ∀ (n : Nat) (i : Int), ((cs.length : Int) - i).toNat ≤ n →
      resolveLoop cs ts i e = resolveLoop cs ts i ((cs.length : Int) - 1) := by
  intro n
  induction n with
  | zero =>
    intro i hi
    rw [resolveLoop_stop cs ts (by omega), resolveLoop_stop cs ts (by omega)]
  | succ n ih =>
    intro i hi
    by_cases hc : i < (cs.length : Int)
    · rw [resolveLoop_step_eq cs ts ⟨hc, by omega⟩,
        resolveLoop_step_eq cs ts ⟨hc, by omega⟩, ih (i + 1) (by omega)]
    · rw [resolveLoop_stop cs ts (by omega), resolveLoop_stop cs ts (by omega)]

/-! ### Further helper lemmas used by the claim theorems -/

lemma scoreStep_body_eq {c : CommitCommentsResponse} {b : String}
    (hb : c.body = b) (acc : JSNumber) :
    scoreStep acc c = scoreStep acc ⟨b, none, ""⟩ := by
  unfold scoreStep
  rw [hb]

lemma foldl_scoreStep_bodies :
    ∀ (cs : List CommitCommentsResponse) (acc : JSNumber),
      List.foldl scoreStep acc cs =
        List.foldl scoreStep acc
          ((cs.map (fun c => c.body)).map (fun b => ⟨b, none, ""⟩)) := by
  intro cs
  induction cs with
  | nil => intro acc; rfl
  | cons c rest ih =>
    intro acc
    rw [List.map_cons, List.map_cons, List.foldl_cons, List.foldl_cons,
      ← scoreStep_body_eq rfl acc]
    exact ih _

lemma makeGrader_assignments_eq (commitsFile testsFile : String) (bounds : Int × Int)
    (env : CommitMetadata → List CommitCommentsResponse) :
    (makeGrader commitsFile testsFile bounds env).assignments =
      (resolveLoop (getSubmissions commitsFile testsFile).1
          (getSubmissions commitsFile testsFile).2 bounds.1 bounds.2).1.filter
        (fun m => (getExistingGrade (env m)).isNone) := rfl

lemma not_mem_makeGrader_of_isSome {commitsFile testsFile : String}
    {bounds : Int × Int} {env : CommitMetadata → List CommitCommentsResponse}
    {m : CommitMetadata} (h : (getExistingGrade (env m)).isSome = true) :
    m ∉ (makeGrader commitsFile testsFile bounds env).assignments := by
  intro hmem
  rw [makeGrader_assignments_eq] at hmem
  have hnone := (List.mem_filter.mp hmem).2
  rw [Option.isNone_iff_eq_none.mp hnone] at h
  exact absurd h (by simp)

lemma graderHandlesAux_fst_mem (env : CommitMetadata → List CommitCommentsResponse)
    (postUrl : CommitMetadata → String) (total : Nat) :
    ∀ (l : List CommitMetadata) (i : Nat) (p : CommitMetadata × GradeHandleM),
      p ∈ graderHandlesAux env postUrl total l i → p.1 ∈ l := by
  intro l
  induction l with
  | nil =>
    intro i p hp
    exact absurd hp (by simp [graderHandlesAux])
  | cons c rest ih =>
    intro i p hp
    rcases List.mem_cons.mp hp with rfl | hp
    · exact List.mem_cons_self _ _
    · exact List.mem_cons_of_mem c (ih (i + 1) p hp)

lemma jsStartsWith_append (p t : String) : jsStartsWith (p ++ t) p = true := by
  unfold jsStartsWith
  rw [String.data_append]
  exact List.isPrefixOf_iff_prefix.mpr (List.prefix_append _ _)

lemma filterMap_length_all_some {α β : Type} (f : α → Option β) :
    ∀ (l : List α), (∀ a ∈ l, (f a).isSome = true) → (l.filterMap f).length = l.length := by
  intro l
  induction l with
  | nil => intro _; rfl
  | cons a rest ih =>
    intro h
    rw [List.filterMap_cons]
    cases hf : f a with
    | none =>
      have := h a (List.mem_cons_self _ _)
      rw [hf] at this
      exact absurd this (by simp)
    | some b =>
      simp only [List.length_cons]
      rw [ih (fun x hx => h x (List.mem_cons_of_mem a hx))]

/-! ### The claims -/

/-- Claim C1 is false as stated: gradeAssignment does not restrict
score-comment candidates to inline file-level comments.  A commit-level
comment (null path) whose body matches the score pattern does
contribute its delta: a fetched list holding a single commit-level
comment with body plus-three yields 103 on base 100, where the claim
requires the commit-level comment to contribute nothing (total 100). -/
theorem claim_C1_counterexample :
    gradeAssignment [⟨"+3", none, "u"⟩] 100 = JSNumber.num 103 ∧
      JSNumber.num 103 ≠ JSNumber.num 100 := by
  decide

/-- Claim C1 (amended): the score-and-post action treats every fetched
comment as a score-comment candidate regardless of its path; however a
comment whose body starts with the finalized-score prefix or the
tests-link prefix never matches the score pattern, hence never
contributes a delta to the computed total: removing such a comment from
the fetched list leaves the total unchanged. -/
theorem claim_C1 (pre post : List CommitCommentsResponse)
    (c : CommitCommentsResponse) (base : Int)
    (h : jsStartsWith c.body SCORE_PREFIX = true ∨
      jsStartsWith c.body TESTS_PREFIX = true) :
    gradeAssignment (pre ++ c :: post) base = gradeAssignment (pre ++ post) base ∧
      matchScoreComment c.body = none := by
  have hnone := matchScoreComment_none_of_marker h
  refine ⟨?_, hnone⟩
  rw [gradeAssignment_insert]
  have hz : scoreDelta c = JSNumber.num 0 := by
    unfold scoreDelta
    rw [hnone]
  rw [hz, jsAdd_num_zero]

/-- Witness for the amended claim C1 at a concrete input. -/
theorem claim_C1_witness :
    gradeAssignment [⟨"+1", some "f", "u1"⟩, ⟨"Score: 95/100", none, "u2"⟩] 100 =
        gradeAssignment [⟨"+1", some "f", "u1"⟩] 100 ∧
      matchScoreComment "Score: 95/100" = none :=
  claim_C1 [⟨"+1", some "f", "u1"⟩] [] ⟨"Score: 95/100", none, "u2"⟩ 100
    (Or.inl (by decide))

/-- Claim C2 is false as stated: a body that does not match a leading
plus-or-minus signed integer is claimed to contribute zero, but the
implemented character class also accepts the pipe character, whose
capture converts to NaN; a single file comment with body pipe-five
drives the total to NaN instead of leaving it at the base 100. -/
theorem claim_C2_counterexample :
    gradeAssignment [⟨"|5", some "f.txt", "u"⟩] 100 = JSNumber.nan ∧
      JSNumber.nan ≠ JSNumber.num 100 := by
  decide

/-- Claim C2 (amended): the concrete example aggregates to 101; every
comment contributes exactly its delta (the numeric conversion of its
capture) to the fold; a body with a leading plus-or-minus sign followed
by digits contributes that signed integer; and a body that does not
match the implemented pattern (sign class of plus, pipe, minus)
contributes zero.  Bodies accepted through the pipe member of the class
contribute NaN, which is the subject of claim C9. -/
theorem claim_C2 :
    (∀ cs : List CommitCommentsResponse,
        cs.map (fun c => c.body) = ["+3: nice", "-2: fix", "observation", "-", "5"] →
        gradeAssignment cs 100 = JSNumber.num 101)
    ∧ (∀ (pre post : List CommitCommentsResponse) (c : CommitCommentsResponse)
        (base : Int),
        gradeAssignment (pre ++ c :: post) base =
          jsAdd (gradeAssignment (pre ++ post) base) (scoreDelta c))
    ∧ (∀ (body : String) (c : Char) (ds rest : List Char),
        body.data = c :: (ds ++ rest) → (c = '+' ∨ c = '-') → ds ≠ [] →
        (∀ d ∈ ds, d.isDigit = true) →
        (∀ d, rest.head? = some d → d.isDigit = false) →
        ∀ comment : CommitCommentsResponse, comment.body = body →
          scoreDelta comment = JSNumber.num
            (if c = '-' then -(digitsVal ds : Int) else (digitsVal ds : Int)))
    ∧ (∀ comment : CommitCommentsResponse, matchScoreComment comment.body = none →
        scoreDelta comment = JSNumber.num 0) := by
  refine ⟨?_, ?_, ?_, ?_⟩
  · intro cs h
    unfold gradeAssignment
    rw [foldl_scoreStep_bodies cs (JSNumber.num 100), h]
    decide
  · intro pre post c base
    exact gradeAssignment_insert pre post c base
  · intro body c ds rest hb hc hds hdig hrest comment hbody
    exact scoreDelta_signed hb hc hds hdig hrest comment hbody
  · intro comment h
    unfold scoreDelta
    rw [h]

/-- Witness for the amended claim C2 at concrete inputs. -/
theorem claim_C2_witness :
    gradeAssignment
        [⟨"+3: nice", some "a", "u1"⟩, ⟨"-2: fix", some "b", "u2"⟩,
         ⟨"observation", some "c", "u3"⟩, ⟨"-", some "d", "u4"⟩,
         ⟨"5", some "e", "u5"⟩] 100 = JSNumber.num 101 ∧
      scoreDelta ⟨"-7: late", some "f", "u"⟩ = JSNumber.num (-7) := by
  constructor
  · exact claim_C2.1 _ (by decide)
  · exact claim_C2.2.2.1 "-7: late" '-' ['7'] (':' :: " late".data) rfl
      (Or.inr rfl) (by decide) (by decide) (fun d hd => by
        rw [show d = ':' from (Option.some.injEq _ _).mp hd.symm]
        decide) _ rfl

/-- Claim C9: the implemented score pattern accepts the pipe character
as a sign, the capture of such a body converts to NaN, any fetched list
holding such a body aggregates to NaN, and the finalized comment then
posted reads Score: NaN over the base. -/
theorem claim_C9 (cs : List CommitCommentsResponse) (base : Int) (postUrl : String)
    (c : CommitCommentsResponse) (hmem : c ∈ cs)
    (d : Char) (rest : List Char) (hbody : c.body.data = '|' :: d :: rest)
    (hd : d.isDigit = true) :
    (matchScoreComment c.body).isSome = true ∧
    gradeAssignment cs base = JSNumber.nan ∧
    (calculateAndPostGrade cs base postUrl).1.comment =
      "Score: NaN/" ++ jsNumToString (JSNumber.num base) ∧
    (calculateAndPostGrade cs base postUrl).2.body =
      "Score: NaN/" ++ jsNumToString (JSNumber.num base) := by
  have htw : (d :: rest).takeWhile Char.isDigit = d :: rest.takeWhile Char.isDigit := by
    rw [List.takeWhile_cons, if_pos hd]
  have hmatch : matchScoreComment c.body =
      some ('|' :: d :: rest.takeWhile Char.isDigit) := by
    unfold matchScoreComment
    rw [hbody]
    simp only [htw, if_neg (show ¬(d :: rest.takeWhile Char.isDigit = []) from by simp)]
    rw [if_pos]
    tauto
  have hnws : ∀ x ∈ '|' :: d :: rest.takeWhile Char.isDigit, x.isWhitespace = false := by
    intro x hx
    rcases List.mem_cons.mp hx with rfl | hx
    · decide
    rcases List.mem_cons.mp hx with rfl | hx
    · exact scoreChar_not_ws (Or.inl hd)
    · exact scoreChar_not_ws (Or.inl (List.mem_takeWhile_imp hx))
  have hpd : parseDigits ('|' :: d :: rest.takeWhile Char.isDigit) = JSNumber.nan := by
    unfold parseDigits
    rw [if_neg]
    intro hcon
    have h2 := hcon.2
    rw [List.all_cons, show Char.isDigit '|' = false from by decide] at h2
    simp at h2
  have hdelta : scoreDelta c = JSNumber.nan := by
    unfold scoreDelta
    simp only [hmatch]
    rw [jsNum_cons hnws, if_neg (by decide), if_neg (by decide), hpd]
  have hnan : gradeAssignment cs base = JSNumber.nan :=
    gradeAssignment_nan hmem hdelta base
  refine ⟨by rw [hmatch]; rfl, hnan, ?_, ?_⟩ <;>
  · unfold calculateAndPostGrade
    simp only [hnan, if_neg (show ¬(JSNumber.nan = JSNumber.num base) from by simp)]
    rfl

/-- Witness for claim C9 at a concrete input. -/
theorem claim_C9_witness :
    (matchScoreComment "|5: ok").isSome = true ∧
    gradeAssignment [⟨"|5: ok", some "a.txt", "u"⟩] 100 = JSNumber.nan ∧
    (calculateAndPostGrade [⟨"|5: ok", some "a.txt", "u"⟩] 100 "purl").1.comment =
      "Score: NaN/" ++ jsNumToString (JSNumber.num 100) ∧
    (calculateAndPostGrade [⟨"|5: ok", some "a.txt", "u"⟩] 100 "purl").2.body =
      "Score: NaN/" ++ jsNumToString (JSNumber.num 100) :=
  claim_C9 [⟨"|5: ok", some "a.txt", "u"⟩] 100 "purl" ⟨"|5: ok", some "a.txt", "u"⟩
    (by decide) '5' (':' :: " ok".data) rfl (by decide)

/-- Claim C3: an assignment whose fetched comments hold a non-file
(falsy-path) comment starting with the score marker is excluded from
the working set of every grader construction over the same inputs, and
is never yielded as a handle; an assignment resolved from the listings
without such a comment is admitted.  Construction is a pure function of
the file contents, bounds and remote comment state, so exclusion is
identical on every reconstruction. -/
theorem claim_C3 (commitsFile testsFile : String) (bounds : Int × Int)
    (env : CommitMetadata → List CommitCommentsResponse) (m : CommitMetadata) :
    ((∃ c ∈ env m, (pathFalsy c.path && jsStartsWith c.body SCORE_PREFIX) = true) →
      m ∉ (makeGrader commitsFile testsFile bounds env).assignments ∧
      ∀ (postUrl : CommitMetadata → String) (p : CommitMetadata × GradeHandleM),
        p ∈ graderHandles (makeGrader commitsFile testsFile bounds env).assignments
            env postUrl →
        p.1 ≠ m)
    ∧ ((¬∃ c ∈ env m, (pathFalsy c.path && jsStartsWith c.body SCORE_PREFIX) = true) →
      m ∈ (resolveLoop (getSubmissions commitsFile testsFile).1
            (getSubmissions commitsFile testsFile).2 bounds.1 bounds.2).1 →
      m ∈ (makeGrader commitsFile testsFile bounds env).assignments) := by
  constructor
  · intro hex
    have hsome : (getExistingGrade (env m)).isSome = true :=
      (getExistingGrade_isSome_iff (env m)).mpr hex
    have hnm : m ∉ (makeGrader commitsFile testsFile bounds env).assignments :=
      not_mem_makeGrader_of_isSome hsome
    refine ⟨hnm, ?_⟩
    intro postUrl p hp heq
    exact hnm (heq ▸ graderHandlesAux_fst_mem env postUrl _ _ 0 p hp)
  · intro hnex hres
    have hnone : getExistingGrade (env m) = none := by
      cases hg : getExistingGrade (env m) with
      | none => rfl
      | some v =>
        exact absurd ((getExistingGrade_isSome_iff (env m)).mp (by rw [hg]; rfl)) hnex
    rw [makeGrader_assignments_eq]
    exact List.mem_filter.mpr ⟨hres, by rw [hnone]; rfl⟩

/-- Witness for claim C3 at a concrete input: a remote state carrying a
finalized score comment excludes the assignment. -/
theorem claim_C3_witness :
    (⟨"ann", "sha", "cu", "o/r", "tu"⟩ : CommitMetadata) ∉
      (makeGrader "" "" (0, -1)
        (fun _ => [⟨"Score: 50/100", none, "u"⟩])).assignments :=
  ((claim_C3 "" "" (0, -1) (fun _ => [⟨"Score: 50/100", none, "u"⟩])
      ⟨"ann", "sha", "cu", "o/r", "tu"⟩).1
    ⟨⟨"Score: 50/100", none, "u"⟩, by decide, by decide⟩).1

/-- Claim C10: when the computed total equals the base, the posted
finalized comment is the glyph comment; getExistingGrade recovers NaN
(not undefined) from it, so the assignment is still excluded from the
working set on every reconstruction, while the score-status query
reports NaN as its score. -/
theorem claim_C10 (cs : List CommitCommentsResponse) (base : Int) (postUrl : String)
    (hadm : ∀ c ∈ cs, (pathFalsy c.path && jsStartsWith c.body SCORE_PREFIX) = false)
    (heq : gradeAssignment cs base = JSNumber.num base) :
    (calculateAndPostGrade cs base postUrl).2.body = "Score: 💯" ∧
    getExistingGrade (cs ++ [(calculateAndPostGrade cs base postUrl).2]) =
      some JSNumber.nan ∧
    (∀ (commitsFile testsFile : String) (bounds : Int × Int)
        (env : CommitMetadata → List CommitCommentsResponse) (m : CommitMetadata),
      env m = cs ++ [(calculateAndPostGrade cs base postUrl).2] →
      m ∉ (makeGrader commitsFile testsFile bounds env).assignments) ∧
    (∀ (assignments : List CommitMetadata)
        (env : CommitMetadata → List CommitCommentsResponse) (m : CommitMetadata),
      m ∈ assignments →
      env m = cs ++ [(calculateAndPostGrade cs base postUrl).2] →
      (m.author, some JSNumber.nan) ∈ getAssignmentScores assignments env) := by
  have hposted : (calculateAndPostGrade cs base postUrl).2 =
      ⟨"Score: 💯", none, postUrl⟩ := by
    unfold calculateAndPostGrade
    simp only [heq, eq_self_iff_true, if_true]
    rfl
  have hgrade : getExistingGrade (cs ++ [(calculateAndPostGrade cs base postUrl).2]) =
      some JSNumber.nan := by
    rw [getExistingGrade_skip hadm, hposted,
      getExistingGrade_cons_hit
        (by exact (by decide :
          (pathFalsy none && jsStartsWith "Score: 💯" SCORE_PREFIX) = true))]
    rfl
  refine ⟨by rw [hposted], hgrade, ?_, ?_⟩
  · intro commitsFile testsFile bounds env m henv
    exact not_mem_makeGrader_of_isSome (by rw [henv, hgrade]; rfl)
  · intro assignments env m hmem henv
    have : (fun commit => (commit.author, getExistingGrade (env commit))) m =
        (m.author, some JSNumber.nan) := by
      simp only [henv, hgrade]
    exact this ▸ List.mem_map_of_mem _ hmem

/-- Witness for claim C10 at a concrete input: an assignment with no
comments grades to the base 100 and is finalized with the glyph. -/
theorem claim_C10_witness :
    (calculateAndPostGrade [] 100 "purl").2.body = "Score: 💯" ∧
    getExistingGrade ([] ++ [(calculateAndPostGrade [] 100 "purl").2]) =
      some JSNumber.nan ∧
    (∀ (commitsFile testsFile : String) (bounds : Int × Int)
        (env : CommitMetadata → List CommitCommentsResponse) (m : CommitMetadata),
      env m = [] ++ [(calculateAndPostGrade [] 100 "purl").2] →
      m ∉ (makeGrader commitsFile testsFile bounds env).assignments) ∧
    (∀ (assignments : List CommitMetadata)
        (env : CommitMetadata → List CommitCommentsResponse) (m : CommitMetadata),
      m ∈ assignments →
      env m = [] ++ [(calculateAndPostGrade [] 100 "purl").2] →
      (m.author, some JSNumber.nan) ∈ getAssignmentScores assignments env) :=
  claim_C10 [] 100 "purl" (by decide) (by decide)

/-- Claim C4: when the fetched list already holds a comment whose body
starts with the tests-link prefix, producing the handle posts nothing
and its tests-comment URL is that of the first such comment in fetch
order, so a second independent construction over the same state returns
the same URL; only when no such comment exists is a commit-level
comment of the prefix followed by the tests URL posted, after which a
second construction finds the posted comment and posts nothing. -/
theorem claim_C4 (comments : List CommitCommentsResponse) (testsUrl purl purl2 : String) :
    ((∃ c ∈ comments, jsStartsWith c.body TESTS_PREFIX = true) →
      (ensureTestsComment comments testsUrl purl).2 = none ∧
      (∃ c0, comments.find? (fun c => jsStartsWith c.body TESTS_PREFIX) = some c0 ∧
        (ensureTestsComment comments testsUrl purl).1 = c0 ∧
        (ensureTestsComment comments testsUrl purl2).1.html_url =
          (ensureTestsComment comments testsUrl purl).1.html_url))
    ∧ ((¬∃ c ∈ comments, jsStartsWith c.body TESTS_PREFIX = true) →
      (ensureTestsComment comments testsUrl purl).2 =
        some ⟨ TESTS_PREFIX ++ " " ++ testsUrl, none, purl⟩ ∧
      (ensureTestsComment comments testsUrl purl).1.html_url = purl ∧
      ensureTestsComment (comments ++ [(ensureTestsComment comments testsUrl purl).1])
          testsUrl purl2 =
        ((ensureTestsComment comments testsUrl purl).1, none)) := by
  constructor
  · intro hex
    have hsome : (comments.find? (fun c => jsStartsWith c.body TESTS_PREFIX)).isSome
        = true := List.find?_isSome.mpr hex
    obtain ⟨c0, hc0⟩ := Option.isSome_iff_exists.mp hsome
    refine ⟨?_, c0, hc0, ?_, ?_⟩ <;>
      (unfold ensureTestsComment; rw [hc0])
  · intro hnex
    have hnone : comments.find? (fun c => jsStartsWith c.body TESTS_PREFIX) = none :=
      List.find?_eq_none.mpr (fun x hx hp => hnex ⟨x, hx, hp⟩)
    have hfirst : ensureTestsComment comments testsUrl purl =
        (⟨ TESTS_PREFIX ++ " " ++ testsUrl, none, purl⟩,
         some ⟨ TESTS_PREFIX ++ " " ++ testsUrl, none, purl⟩) := by
      unfold ensureTestsComment
      rw [hnone]
    have hpref : jsStartsWith ( TESTS_PREFIX ++ " " ++ testsUrl) TESTS_PREFIX = true := by
      rw [String.append_assoc]
      exact jsStartsWith_append TESTS_PREFIX (" " ++ testsUrl)
    have hfst : (ensureTestsComment comments testsUrl purl).1 =
        ⟨ TESTS_PREFIX ++ " " ++ testsUrl, none, purl⟩ := by rw [hfirst]
    refine ⟨by rw [hfirst], by rw [hfst], ?_⟩
    rw [hfst]
    unfold ensureTestsComment
    rw [List.find?_append, hnone, Option.none_or,
      @List.find?_cons_of_pos CommitCommentsResponse
        (fun c => jsStartsWith c.body TESTS_PREFIX)
        ⟨ TESTS_PREFIX ++ " " ++ testsUrl, none, purl⟩ [] hpref]

/-- Witness for claim C4 at a concrete input: a list already holding a
tests-link comment. -/
theorem claim_C4_witness :
    (ensureTestsComment [⟨"CI tests at http://ci", none, "u0"⟩] "http://t" "p1").2
        = none ∧
    (∃ c0, ([⟨"CI tests at http://ci", none, "u0"⟩] :
          List CommitCommentsResponse).find?
            (fun c => jsStartsWith c.body TESTS_PREFIX) = some c0 ∧
      (ensureTestsComment [⟨"CI tests at http://ci", none, "u0"⟩] "http://t" "p1").1 = c0 ∧
      (ensureTestsComment [⟨"CI tests at http://ci", none, "u0"⟩] "http://t" "p2").1.html_url =
        (ensureTestsComment [⟨"CI tests at http://ci", none, "u0"⟩] "http://t" "p1").1.html_url) :=
  (claim_C4 [⟨"CI tests at http://ci", none, "u0"⟩] "http://t" "p1" "p2").1
    ⟨⟨"CI tests at http://ci", none, "u0"⟩, by decide, by decide⟩

/-- Claim C5 is false as stated: for an assignment with no score
comments the computed total equals the base, the posted finalized
comment is the glyph comment, and the subsequent status query recovers
NaN rather than the posted numeric score 100. -/
theorem claim_C5_counterexample :
    getExistingGrade [(calculateAndPostGrade [] 100 "purl").2] ≠
      some ((calculateAndPostGrade [] 100 "purl").1.score) := by
  decide

/-- Claim C5 (amended): for an admitted assignment (no falsy-path
comment with the score marker among its fetched comments), whenever the
computed total differs from the base score, the comment posted by the
score-and-post action parses back to exactly the posted score in a
subsequent status query over the prior comments plus the posted
comment; when the total equals the base, the glyph comment is posted
and the query recovers NaN (claim C10). -/
theorem claim_C5 (cs : List CommitCommentsResponse) (base : Int) (postUrl : String)
    (hadm : ∀ c ∈ cs, (pathFalsy c.path && jsStartsWith c.body SCORE_PREFIX) = false)
    (hne : gradeAssignment cs base ≠ JSNumber.num base) :
    getExistingGrade (cs ++ [(calculateAndPostGrade cs base postUrl).2]) =
      some ((calculateAndPostGrade cs base postUrl).1.score) ∧
    (∀ (assignments : List CommitMetadata)
        (env : CommitMetadata → List CommitCommentsResponse) (m : CommitMetadata),
      m ∈ assignments →
      env m = cs ++ [(calculateAndPostGrade cs base postUrl).2] →
      (m.author, some ((calculateAndPostGrade cs base postUrl).1.score)) ∈
        getAssignmentScores assignments env) := by
  have hposted : (calculateAndPostGrade cs base postUrl).2 =
      ⟨ SCORE_PREFIX ++ " " ++
          (jsNumToString (gradeAssignment cs base) ++ "/" ++
            jsNumToString (JSNumber.num base)),
        none, postUrl⟩ := by
    unfold calculateAndPostGrade
    simp only [if_neg hne]
  have hscore : (calculateAndPostGrade cs base postUrl).1.score =
      gradeAssignment cs base := rfl
  have hpref : jsStartsWith
      ( SCORE_PREFIX ++ " " ++
        (jsNumToString (gradeAssignment cs base) ++ "/" ++
          jsNumToString (JSNumber.num base))) SCORE_PREFIX = true := by
    rw [String.append_assoc]
    exact jsStartsWith_append SCORE_PREFIX _
  have hgrade : getExistingGrade (cs ++ [(calculateAndPostGrade cs base postUrl).2]) =
      some (gradeAssignment cs base) := by
    rw [getExistingGrade_skip hadm, hposted,
      getExistingGrade_cons_hit (by exact hpref), parseScoreBody_posted]
  refine ⟨by rw [hgrade, hscore], ?_⟩
  intro assignments env m hmem henv
  have hmap : (fun commit => (commit.author, getExistingGrade (env commit))) m =
      (m.author, some ((calculateAndPostGrade cs base postUrl).1.score)) := by
    simp only [henv, hgrade, hscore]
  exact hmap ▸ List.mem_map_of_mem _ hmem

/-- Witness for the amended claim C5 at a concrete input: one deduction
of ten points posts 90 over 100 and parses back to 90. -/
theorem claim_C5_witness :
    getExistingGrade ([⟨"-10: x", some "f", "u"⟩] ++
        [(calculateAndPostGrade [⟨"-10: x", some "f", "u"⟩] 100 "purl").2]) =
      some ((calculateAndPostGrade [⟨"-10: x", some "f", "u"⟩] 100 "purl").1.score) :=
  (claim_C5 [⟨"-10: x", some "f", "u"⟩] 100 "purl" (by decide) (by decide)).1

lemma resolveRow_isSome (c t : Submission) :
    (resolveRow c t).isSome = (ghMatch c.url).isSome := by
  unfold resolveRow
  cases ghMatch c.url <;> rfl

/-- Claim C6: over a pair of equal-length listings in which exactly one
row fails the GitHub commit URL pattern, full-range resolution yields
every other row's metadata record, in ascending index order with no
deduplication (the metadata list is exactly the filter-map of the row
resolution over the zipped listings), of length one less than the row
count, and the error collection is exactly the single string naming the
failing row's author; the failing row aborts nothing. -/
theorem claim_C6 (cs ts : List Submission) (k : Nat)
    (hlen : ts.length = cs.length) (hk : k < cs.length)
    (hbad : ghMatch (cs.get ⟨k, hk⟩).url = none)
    (hgood : ∀ (j : Nat) (hj : j < cs.length), j ≠ k →
      (ghMatch (cs.get ⟨j, hj⟩).url).isSome = true) :
    (resolveLoop cs ts 0 ((cs.length : Int) - 1)).1 =
        (cs.zip ts).filterMap (fun p => resolveRow p.1 p.2) ∧
    (resolveLoop cs ts 0 ((cs.length : Int) - 1)).1.length = cs.length - 1 ∧
    (resolveLoop cs ts 0 ((cs.length : Int) - 1)).2 =
        ["GitHub commit missing for " ++ (cs.get ⟨k, hk⟩).author] := by
  have hzlen : (cs.zip ts).length = cs.length := by
    rw [List.length_zip, hlen]
    omega
  have hzk : k < (cs.zip ts).length := by omega
  have h0 : resolveLoop cs ts 0 ((cs.length : Int) - 1) = resolveRows (cs.zip ts) := by
    have hbridge := resolveLoop_eq_rows cs ts hlen cs.length 0 (by omega)
    simpa using hbridge
  have hbadElem : ghMatch (cs[k]).url = none := hbad
  have hsplit : cs.zip ts =
      (cs.zip ts).take k ++ (cs.zip ts)[k] :: (cs.zip ts).drop (k + 1) := by
    conv_lhs => rw [← List.take_append_drop k (cs.zip ts)]
    rw [List.drop_eq_getElem_cons hzk]
  have htake_some : ∀ p ∈ (cs.zip ts).take k, (ghMatch p.1.url).isSome = true := by
    intro p hp
    obtain ⟨j, hj, hpj⟩ := List.mem_iff_getElem.mp hp
    have hjk : j < k := by
      have hjl := hj
      rw [List.length_take] at hjl
      omega
    rw [List.getElem_take] at hpj
    rw [← hpj, List.getElem_zip]
    exact hgood j (by omega) (by omega)
  have hdrop_some : ∀ p ∈ (cs.zip ts).drop (k + 1), (ghMatch p.1.url).isSome = true := by
    intro p hp
    obtain ⟨j, hj, hpj⟩ := List.mem_iff_getElem.mp hp
    have hjl := hj
    rw [List.length_drop] at hjl
    rw [List.getElem_drop] at hpj
    rw [← hpj, List.getElem_zip]
    exact hgood (k + 1 + j) (by omega) (by omega)
  have hkpair : (cs.zip ts)[k] = (cs[k], ts.get ⟨k, by omega⟩) := List.getElem_zip
  refine ⟨by rw [h0, resolveRows_fst], ?_, ?_⟩
  · rw [h0, resolveRows_fst]
    conv_lhs => rw [hsplit]
    rw [List.filterMap_append, List.filterMap_cons]
    have hknone : resolveRow ((cs.zip ts)[k]).1 ((cs.zip ts)[k]).2 = none := by
      rw [hkpair]
      unfold resolveRow
      rw [show ghMatch ((cs[k], ts.get ⟨k, by omega⟩).1).url = none from hbadElem]
      rfl
    rw [hknone, List.length_append,
      filterMap_length_all_some _ _ (fun p hp => by
        rw [resolveRow_isSome]
        exact htake_some p hp),
      filterMap_length_all_some _ _ (fun p hp => by
        rw [resolveRow_isSome]
        exact hdrop_some p hp),
      List.length_take, List.length_drop]
    have hmin : k ⊓ (cs.zip ts).length = k := Nat.min_eq_left (by omega)
    omega
  · rw [h0, resolveRows_snd]
    conv_lhs => rw [hsplit]
    rw [List.filterMap_append, List.filterMap_cons,
      List.filterMap_eq_nil_iff.mpr (fun p hp => by
        rw [if_pos (htake_some p hp)]),
      List.filterMap_eq_nil_iff.mpr (fun p hp => by
        rw [if_pos (hdrop_some p hp)]),
      hkpair,
      if_neg (show ¬((ghMatch ((cs[k], ts.get ⟨k, by omega⟩).1).url).isSome = true) from by
        rw [show ghMatch ((cs[k], ts.get ⟨k, by omega⟩).1).url = none from hbadElem]
        simp)]
    rfl

/-- Witness for claim C6 at a concrete input: row 1 of 3 has no GitHub
commit URL. -/
theorem claim_C6_witness :
    (resolveLoop
        [⟨"ann", "https://github.com/o/r/commit/s1"⟩, ⟨"bob", "nope"⟩,
         ⟨"cid", "https://github.com/o/r/commit/s3"⟩]
        [⟨"ann", "t1"⟩, ⟨"bob", "t2"⟩, ⟨"cid", "t3"⟩] 0 ((3 : Int) - 1)).1.length = 3 - 1 ∧
    (resolveLoop
        [⟨"ann", "https://github.com/o/r/commit/s1"⟩, ⟨"bob", "nope"⟩,
         ⟨"cid", "https://github.com/o/r/commit/s3"⟩]
        [⟨"ann", "t1"⟩, ⟨"bob", "t2"⟩, ⟨"cid", "t3"⟩] 0 ((3 : Int) - 1)).2 =
      ["GitHub commit missing for bob"] := by
  have h := claim_C6
    [⟨"ann", "https://github.com/o/r/commit/s1"⟩, ⟨"bob", "nope"⟩,
     ⟨"cid", "https://github.com/o/r/commit/s3"⟩]
    [⟨"ann", "t1"⟩, ⟨"bob", "t2"⟩, ⟨"cid", "t3"⟩] 1 rfl (by decide) (by decide)
    (by
      intro j hj hne
      have hj3 : j < 3 := by simpa using hj
      interval_cases j
      · exact (by decide : (ghMatch "https://github.com/o/r/commit/s1").isSome = true)
      · exact absurd rfl hne
      · exact (by decide : (ghMatch "https://github.com/o/r/commit/s3").isSome = true))
  exact ⟨h.2.1, h.2.2⟩

/-- Claim C7: boundary behavior of the selection bounds in the resolver
loop: a start bound beyond the end bound resolves nothing and raises no
error; a start bound at or beyond the listing length resolves nothing;
equal in-range bounds consider exactly one row (producing exactly one
metadata record or one error); and an end bound at or beyond the last
index behaves exactly as if clamped to the last listing index. -/
theorem claim_C7 (cs ts : List Submission) (s e : Int) :
    (s > e → resolveLoop cs ts s e = ([], [])) ∧
    ((cs.length : Int) ≤ s → resolveLoop cs ts s e = ([], [])) ∧
    (0 ≤ s → s < (cs.length : Int) → s = e →
      (resolveLoop cs ts s e).1.length + (resolveLoop cs ts s e).2.length = 1) ∧
    ((cs.length : Int) - 1 ≤ e →
      resolveLoop cs ts s e = resolveLoop cs ts s ((cs.length : Int) - 1)) := by
  refine ⟨?_, ?_, ?_, ?_⟩
  · intro h
    exact resolveLoop_stop cs ts (by omega)
  · intro h
    exact resolveLoop_stop cs ts (by omega)
  · intro h0 hlt heq
    subst heq
    rw [resolveLoop_step_eq cs ts ⟨hlt, le_refl s⟩, resolveLoop_stop cs ts (by omega)]
    unfold resolveStep
    cases ghMatch (cs.getD s.toNat noSubmission).url <;> simp
  · intro he
    exact resolveLoop_clamp cs ts he (((cs.length : Int) - s).toNat) s (le_refl _)

/-- Witness for claim C7 at concrete inputs. -/
theorem claim_C7_witness :
    resolveLoop [⟨"ann", "u"⟩] [⟨"ann", "t"⟩] 2 1 = ([], []) ∧
    resolveLoop [⟨"ann", "u"⟩] [⟨"ann", "t"⟩] 1 5 = ([], []) ∧
    (resolveLoop [⟨"ann", "u"⟩] [⟨"ann", "t"⟩] 0 0).1.length +
      (resolveLoop [⟨"ann", "u"⟩] [⟨"ann", "t"⟩] 0 0).2.length = 1 ∧
    resolveLoop [⟨"ann", "u"⟩] [⟨"ann", "t"⟩] 0 7 =
      resolveLoop [⟨"ann", "u"⟩] [⟨"ann", "t"⟩] 0 (((1 : Nat) : Int) - 1) :=
  ⟨(claim_C7 [⟨"ann", "u"⟩] [⟨"ann", "t"⟩] 2 1).1 (by omega),
   (claim_C7 [⟨"ann", "u"⟩] [⟨"ann", "t"⟩] 1 5).2.1 (by
     show ((1 : Nat) : Int) ≤ 1
     omega),
   (claim_C7 [⟨"ann", "u"⟩] [⟨"ann", "t"⟩] 0 0).2.2.1 (by omega) (by
     show (0 : Int) < ((1 : Nat) : Int)
     omega) rfl,
   (claim_C7 [⟨"ann", "u"⟩] [⟨"ann", "t"⟩] 0 7).2.2.2 (by
     show ((1 : Nat) : Int) - 1 ≤ 7
     omega)⟩

/-- Claim C8: the comment-service adapter funnels every failing list or
post operation through the supplied error handler: the wrapped promise
always resolves (never stays rejected), a rejected underlying operation
resolves to exactly the handler's return value, and the default handler
returns the numeric exit code one. -/
theorem claim_C8 (fetch : PromiseResult (List CommitCommentsResponse))
    (post : PromiseResult CommitCommentsResponse)
    (handler : CommitCommentsError → Nat) :
    (∃ v, getComments fetch handler = PromiseResult.resolved v) ∧
    (∀ e, fetch = PromiseResult.rejected e →
      getComments fetch handler = PromiseResult.resolved (Sum.inr (handler e))) ∧
    (∃ v, postComment post handler = PromiseResult.resolved v) ∧
    (∀ e, post = PromiseResult.rejected e →
      postComment post handler = PromiseResult.resolved (Sum.inr (handler e))) ∧
    (∀ e, handleFailedRequest e = 1) := by
  refine ⟨?_, ?_, ?_, ?_, fun _ => rfl⟩
  · cases fetch <;> exact ⟨_, rfl⟩
  · intro e he
    rw [he]
    rfl
  · cases post <;> exact ⟨_, rfl⟩
  · intro e he
    rw [he]
    rfl

/-- Witness for claim C8 at a concrete input: a rejected fetch resolves
to the handler's exit code. -/
theorem claim_C8_witness :
    getComments (PromiseResult.rejected ⟨"boom", "uri"⟩) handleFailedRequest =
      PromiseResult.resolved (Sum.inr 1) :=
  (claim_C8 (PromiseResult.rejected ⟨"boom", "uri"⟩)
      (PromiseResult.resolved ⟨"b", none, "u"⟩) handleFailedRequest).2.1
    ⟨"boom", "uri"⟩ rfl


